import Mathlib

/-!
# Verification of `jupyter-kernel-client`

A shallow embedding of the protocol-relevant parts of the
`jupyter_kernel_client` Python package, together with proofs about the
v1 WebSocket frame codec (`utils.py`) and the HTTP kernel manager
(`manager.py`).

Python byte strings are modelled as `List Nat` (each element a byte value
below 256 in real frames), Python `str` as `List Char` (Lean `Char` is a
unicode scalar value, exactly the code points a Python `str` may hold).
-/

namespace JupyterKernelClient

abbrev Bytes := List Nat

/-- Python `v.to_bytes(n, byteorder="little")`: the `n` little-endian base-256
digits of `v`.  (Python raises `OverflowError` when `v ≥ 256 ^ n`; callers
below guard that case explicitly.) -/
def toBytesLE (n : Nat) (v : Nat) : Bytes :=
  match n with
  | 0 => []
  | m + 1 => v % 256 :: toBytesLE m (v / 256)

/-- Python `int.from_bytes(bs, "little")`. -/
def fromBytesLE : Bytes → Nat
  | [] => 0
  | b :: bs => b + 256 * fromBytesLE bs

/-- Python slice `l[a:b]` for non-negative `a`, `b`: the elements with indices
in `[a, b)`, clamped to the list, never reading out of bounds. -/
def pySlice (l : Bytes) (a b : Nat) : Bytes :=
  (l.drop a).take (b - a)

/-! ## UTF-8

Python's `str.encode("utf-8")` and `bytes.decode("utf-8")`, modelled on
code-point lists.  The decoder rejects continuation-byte leads, overlong
forms, surrogates and out-of-range values, as CPython's strict decoder does.
-/

/-- UTF-8 encoding of one unicode scalar value (Python guarantees the code
point of a `str` element is a scalar value, as does Lean's `Char`). -/
def utf8EncodeChar (c : Char) : Bytes :=
  let n := c.toNat
  if n < 128 then [n]
  else if n < 2048 then [192 + n / 64, 128 + n % 64]
  else if n < 65536 then [224 + n / 4096, 128 + n / 64 % 64, 128 + n % 64]
  else [240 + n / 262144, 128 + n / 4096 % 64, 128 + n / 64 % 64, 128 + n % 64]

/-- Python `channel.encode("utf-8")`. -/
def strEncodeUtf8 (s : List Char) : Bytes :=
  (s.map utf8EncodeChar).flatten

/-- A UTF-8 continuation byte. -/
abbrev isCont (b : Nat) : Prop :=
  128 ≤ b ∧ b < 192

/-- Continuation of a two-byte sequence with lead byte `b` (`194 ≤ b < 224`):
one continuation byte, rejecting anything else. -/
def utf8Step2 (b : Nat) : Bytes → Option (Nat × Bytes)
  | b1 :: bs1 =>
    if isCont b1 then some ((b - 192) * 64 + (b1 - 128), bs1) else none
  | [] => none

/-- Continuation of a three-byte sequence with lead byte `b` (`224 ≤ b < 240`):
two continuation bytes, rejecting overlong forms and surrogates. -/
def utf8Step3 (b : Nat) : Bytes → Option (Nat × Bytes)
  | b1 :: b2 :: bs2 =>
    if isCont b1 ∧ isCont b2 then
      let n := (b - 224) * 4096 + (b1 - 128) * 64 + (b2 - 128)
      if 2048 ≤ n ∧ ¬ (55296 ≤ n ∧ n < 57344) then some (n, bs2) else none
    else none
  | _ => none

/-- Continuation of a four-byte sequence with lead byte `b` (`240 ≤ b < 245`):
three continuation bytes, rejecting overlong and out-of-range values. -/
def utf8Step4 (b : Nat) : Bytes → Option (Nat × Bytes)
  | b1 :: b2 :: b3 :: bs3 =>
    if isCont b1 ∧ isCont b2 ∧ isCont b3 then
      let n := (b - 240) * 262144 + (b1 - 128) * 4096 + (b2 - 128) * 64 + (b3 - 128)
      if 65536 ≤ n ∧ n < 1114112 then some (n, bs3) else none
    else none
  | _ => none

/-- Decode one UTF-8 sequence from the head of the buffer: the code point and
the remaining bytes, or `none` on any malformed sequence. -/
def utf8DecodeStep : Bytes → Option (Nat × Bytes)
  | [] => none
  | b :: bs =>
    if b < 128 then some (b, bs)
    else if b < 194 then none
    else if b < 224 then utf8Step2 b bs
    else if b < 240 then utf8Step3 b bs
    else if b < 245 then utf8Step4 b bs
    else none

/-- Fuel-driven UTF-8 decoding loop: decodes one sequence at a time from the
head.  `utf8DecodeStep` always consumes at least one byte, so fuel
`l.length` suffices. -/
def utf8DecodeFuel : Nat → Bytes → Option (List Char)
  | _, [] => some []
  | 0, _ :: _ => none
  | fuel + 1, b :: bs =>
    match utf8DecodeStep (b :: bs) with
    | none => none
    | some (n, rest) => (utf8DecodeFuel fuel rest).map (fun cs => Char.ofNat n :: cs)

/-- Python `bytes.decode("utf-8")` (strict): `none` models
`UnicodeDecodeError`. -/
def utf8Decode (l : Bytes) : Option (List Char) :=
  utf8DecodeFuel l.length l

/-! ## The v1 frame codec (`utils.py`) -/

/-- The offset-accumulation loop of `serialize_msg_to_ws_v1`:
`for msg in msg_list: offsets.append(len(msg) + offsets[-1])`, started from
`last`, run over `parts`. -/
def wsOffsetsAux (last : Nat) : List Bytes → List Nat
  | [] => []
  | p :: ps => (p.length + last) :: wsOffsetsAux (p.length + last) ps

/-- The complete `offsets` list built by `serialize_msg_to_ws_v1`: the first
entry is `8 * (1 + 1 + len(msg_list) + 1)`, then the end offset of the channel
bytes, then the end offset of each message part. -/
def wsOffsets (msg_list : List Bytes) (channelB : Bytes) : List Nat :=
  let o0 := 8 * (1 + 1 + msg_list.length + 1)
  o0 :: wsOffsetsAux o0 (channelB :: msg_list)

/-- `serialize_msg_to_ws_v1(msg_list, channel)` (the `pack=None` branch, the
message already being a list of raw byte parts).  `none` models the
`OverflowError` Python's `to_bytes(8, "little")` raises when a value does not
fit in eight bytes. -/
def serialize_msg_to_ws_v1 (msg_list : List Bytes) (channel : List Char) :
    Option Bytes :=
  let channelB := strEncodeUtf8 channel
  let offsets := wsOffsets msg_list channelB
  if offsets.length < 2 ^ 64 ∧ ∀ o ∈ offsets, o < 2 ^ 64 then
    some (toBytesLE 8 offsets.length ++ (offsets.map (toBytesLE 8)).flatten
      ++ channelB ++ msg_list.flatten)
  else
    none

/-- A kernel protocol message, as the four structured parts
`header`, `parent_header`, `metadata`, `content`. -/
structure KernelMsg (α : Type) where
  header : α
  parent_header : α
  metadata : α
  content : α

/-- `serialize_msg_to_ws_v1(msg, channel, pack)` (the `pack` branch): the four
message parts are pack-encoded in the fixed order header, parent_header,
metadata, content, then framed as in the raw-list branch. -/
def serialize_msg_to_ws_v1_packed {α : Type} (msg : KernelMsg α)
    (channel : List Char) (pack : α → Bytes) : Option Bytes :=
  serialize_msg_to_ws_v1
    [pack msg.header, pack msg.parent_header, pack msg.metadata, pack msg.content]
    channel

/-- How `deserialize_msg_from_ws_v1` can raise: `offsets[0]` / `offsets[1]`
raise `IndexError` when fewer than two offsets are declared, and
`.decode("utf-8")` raises `UnicodeDecodeError` on invalid channel bytes. -/
inductive DeserializeError where
  | indexError
  | unicodeDecodeError
deriving Repr, DecidableEq

/-- `deserialize_msg_from_ws_v1(ws_msg)`: read the declared offset count from
the first eight bytes, read that many eight-byte offsets, decode the channel
from the slice between the first two offsets, and slice out the message parts
between each remaining pair of consecutive offsets. -/
def deserialize_msg_from_ws_v1 (ws_msg : Bytes) :
    Except DeserializeError (List Char × List Bytes) :=
  let offset_number := fromBytesLE (pySlice ws_msg 0 8)
  let offsets := (List.range offset_number).map
    (fun i => fromBytesLE (pySlice ws_msg (8 * (i + 1)) (8 * (i + 2))))
  if offset_number < 2 then
    .error .indexError
  else
    match utf8Decode (pySlice ws_msg (offsets.getD 0 0) (offsets.getD 1 0)) with
    | none => .error .unicodeDecodeError
    | some channel =>
      .ok (channel, (List.range' 1 (offset_number - 2)).map
        (fun i => pySlice ws_msg (offsets.getD i 0) (offsets.getD (i + 1) 0)))

/-- The v1 wire layout as the spec words it: an eight-byte little-endian
count of offsets; that many eight-byte little-endian cumulative offsets, the
first one equal to the preamble size and each following one the end offset of
the successive part (channel bytes, then the four payload parts); then the
concatenated raw bytes of the channel name and the payload parts in that
fixed order. -/
def frameLayoutV1 (msg_list : List Bytes) (channel : List Char) : Bytes :=
  let parts := strEncodeUtf8 channel :: msg_list
  let preamble := 8 * (2 + parts.length)
  let offs := (List.range (parts.length + 1)).map
    (fun i => preamble + ((parts.take i).map List.length).sum)
  toBytesLE 8 (parts.length + 1) ++ (offs.map (toBytesLE 8)).flatten ++ parts.flatten

/-! ## The kernel manager (`manager.py`)

The manager drives the kernel lifecycle over plain HTTP.  The network is
modelled as a function from requests to responses; response bodies are
modelled as the already-parsed kernel model (`response.json()`).
-/

/-- A kernel model as returned by the Jupyter server REST API (the fields the
manager reads from the model dictionary). -/
structure KernelModel where
  id : String
  execution_state : String
  last_activity : String
deriving Repr, DecidableEq

/-- The HTTP methods the manager issues. -/
inductive HttpMethod where
  | GET
  | POST
  | DELETE
deriving Repr, DecidableEq

/-- An HTTP request issued through `fetch`; `payload` models the optional
`json=` body of a POST. -/
structure HttpRequest where
  method : HttpMethod
  url : String
  payload : Option (String × Option String) := none
deriving Repr, DecidableEq

/-- An HTTP response: status code and parsed body. -/
structure HttpResponse where
  status : Nat
  body : KernelModel
deriving Repr, DecidableEq

/-- The network, modelled as a deterministic map from requests to responses. -/
abbrev Http := HttpRequest → HttpResponse

/-- The Python exceptions relevant to the manager: `RuntimeError` and
`requests.HTTPError` carrying the response status. -/
inductive PyError where
  | runtimeError
  | httpError (status : Nat)
deriving Repr, DecidableEq

/-- `fetch(request, ...)`: issue the request and `raise_for_status()`, which
raises `HTTPError` exactly for status codes in `[400, 600)`. -/
def fetch (http : Http) (req : HttpRequest) : Except PyError HttpResponse :=
  let r := http req
  if 400 ≤ r.status ∧ r.status < 600 then .error (.httpError r.status) else .ok r

/-- Modelled from the spec: `url_path_join` is imported from this package's
`utils` module but the provided sources do not contain it; per the spec the
websocket endpoint is the base url joined with `channels` and the kernel URL
is the server URL extended with the api path, so it is modelled as joining
the pieces with single slashes. -/
def url_path_join (pieces : List String) : String :=
  String.intercalate "/" pieces

/-- `re.sub(r"^http", "ws", url, 1)` — `HTTP_PROTOCOL_REGEXP` is anchored, so
only a leading `http` (as code points) is rewritten to `ws`. -/
def http_protocol_sub (url : String) : String :=
  if url.data.take 4 = ['h', 't', 't', 'p'] then
    String.mk ("ws".data ++ url.data.drop 4)
  else url

/-- The keyword arguments passed to the websocket client factory, i.e. the
constructed `KernelWebSocketClient` as far as the manager determines it. -/
structure WSClient where
  endpoint : String
  token : String
  username : String
deriving Repr, DecidableEq

/-- Optional manual overrides (`client_kwargs`), applied last by
`kw.update(self.__client_kwargs or ...)`. -/
structure ClientKwargs where
  endpoint : Option String := none
  token : Option String := none
  username : Option String := none
deriving Repr, DecidableEq

/-- `kw.update(client_kwargs or ...)`: each key present in the overrides
replaces the computed one. -/
def applyKwargs (kw : WSClient) : Option ClientKwargs → WSClient
  | none => kw
  | some ck =>
    { endpoint := ck.endpoint.getD kw.endpoint
      token := ck.token.getD kw.token
      username := ck.username.getD kw.username }

/-- The `KernelClient` manager state; the double-underscore fields mirror the
name-mangled private attributes of the Python class. -/
structure KernelClient where
  server_url : String
  token : String
  username : String
  __kernel : Option KernelModel
  __client : Option WSClient
  __client_kwargs : Option ClientKwargs
deriving Repr, DecidableEq

namespace KernelClient

/-- The `has_kernel` property: a kernel model is stored. -/
def has_kernel (st : KernelClient) : Bool :=
  st.__kernel.isSome

/-- The `id` property. -/
def id (st : KernelClient) : Option String :=
  st.__kernel.map KernelModel.id

/-- The `kernel_url` property:
`url_path_join(self.server_url, "api/kernels", self.id) if self.id else None`;
note that both a missing kernel and an empty id string are falsy. -/
def kernel_url (st : KernelClient) : Option String :=
  match st.id with
  | some i =>
    if i = "" then none else some (url_path_join [st.server_url, "api/kernels", i])
  | none => none

/-- The `client` property: raises `RuntimeError` without a kernel URL,
returns the cached client when present, and otherwise builds the websocket
client from the ws endpoint, token and username, applies `client_kwargs`
last and caches the result. -/
def client (st : KernelClient) : Except PyError (WSClient × KernelClient) :=
  match st.kernel_url with
  | none => .error .runtimeError
  | some u =>
    match st.__client with
    | some c => .ok (c, st)
    | none =>
      let base_ws_url := http_protocol_sub u
      let kw : WSClient :=
        { endpoint := url_path_join [base_ws_url, "channels"]
          token := st.token
          username := st.username }
      let kw2 := applyKwargs kw st.__client_kwargs
      .ok (kw2, { st with __client := some kw2 })

/-- `refresh_model`: raises `RuntimeError` without a kernel URL; on a 404
response the model becomes `None` and the cached client is stopped and
dropped; any other HTTP error propagates; otherwise the parsed model is
stored and returned. -/
def refresh_model (http : Http) (st : KernelClient) :
    Except PyError (Option KernelModel × KernelClient) :=
  match st.kernel_url with
  | none => .error .runtimeError
  | some u =>
    match fetch http { method := .GET, url := u } with
    | .ok r => .ok (some r.body, { st with __kernel := some r.body })
    | .error (.httpError s) =>
      if s = 404 then .ok (none, { st with __kernel := none, __client := none })
      else .error (.httpError s)
    | .error e => .error e

/-- `start_kernel(name, path)`: raises `RuntimeError` if a kernel is already
managed (before any request is issued); otherwise POSTs to
`<server_url>/api/kernels`, stores the returned model and drops any cached
client. -/
def start_kernel (http : Http) (st : KernelClient) (name : String)
    (path : Option String) : Except PyError (KernelModel × KernelClient) :=
  if st.has_kernel then .error .runtimeError
  else
    match fetch http
        { method := .POST, url := st.server_url ++ "/api/kernels",
          payload := some (name, path) } with
    | .ok r => .ok (r.body, { st with __kernel := some r.body, __client := none })
    | .error e => .error e

/-- `shutdown_kernel`: raises `RuntimeError` without a kernel URL; DELETEs the
kernel URL; a 404 response is ignored (kernel already gone), any other HTTP
error propagates. -/
def shutdown_kernel (http : Http) (st : KernelClient) : Except PyError Unit :=
  match st.kernel_url with
  | none => .error .runtimeError
  | some u =>
    match fetch http { method := .DELETE, url := u } with
    | .ok _ => .ok ()
    | .error (.httpError s) =>
      if s = 404 then .ok () else .error (.httpError s)
    | .error e => .error e

end KernelClient

/-- Decidable equality for `Except` results, so concrete runs of the decoder
can be checked by `decide`. -/
instance exceptDecidableEq {ε α : Type} [DecidableEq ε] [DecidableEq α] :
    DecidableEq (Except ε α)
  | .ok x, .ok y =>
    if h : x = y then isTrue (congrArg Except.ok h)
    else isFalse (fun hc => h (Except.ok.inj hc))
  | .error e, .error f =>
    if h : e = f then isTrue (congrArg Except.error h)
    else isFalse (fun hc => h (Except.error.inj hc))
  | .ok _, .error _ => isFalse (fun hc => Except.noConfusion hc)
  | .error _, .ok _ => isFalse (fun hc => Except.noConfusion hc)

set_option maxRecDepth 8000

theorem utf8Step2_length {b : Nat} {bs : Bytes} {n : Nat} {rest : Bytes}
    (h : utf8Step2 b bs = some (n, rest)) : rest.length < bs.length := by
  match bs with
  | [] => simp [utf8Step2] at h
  | b1 :: bs1 =>
    by_cases hc : isCont b1 <;> simp [utf8Step2, hc] at h
    simp [← h.2]

theorem utf8Step3_length {b : Nat} {bs : Bytes} {n : Nat} {rest : Bytes}
    (h : utf8Step3 b bs = some (n, rest)) : rest.length < bs.length := by
  match bs with
  | [] => simp [utf8Step3] at h
  | [b1] => simp [utf8Step3] at h
  | b1 :: b2 :: bs2 =>
    simp only [utf8Step3] at h
    split at h
    · split at h
      · simp only [Option.some.injEq, Prod.mk.injEq] at h
        simp [← h.2]
        omega
      · exact absurd h (by simp)
    · exact absurd h (by simp)

theorem utf8Step4_length {b : Nat} {bs : Bytes} {n : Nat} {rest : Bytes}
    (h : utf8Step4 b bs = some (n, rest)) : rest.length < bs.length := by
  match bs with
  | [] => simp [utf8Step4] at h
  | [b1] => simp [utf8Step4] at h
  | [b1, b2] => simp [utf8Step4] at h
  | b1 :: b2 :: b3 :: bs3 =>
    simp only [utf8Step4] at h
    split at h
    · split at h
      · simp only [Option.some.injEq, Prod.mk.injEq] at h
        simp [← h.2]
        omega
      · exact absurd h (by simp)
    · exact absurd h (by simp)

theorem utf8DecodeStep_length {l : Bytes} {n : Nat} {rest : Bytes}
    (h : utf8DecodeStep l = some (n, rest)) : rest.length < l.length := by
  match l with
  | [] => simp [utf8DecodeStep] at h
  | b :: bs =>
    simp only [utf8DecodeStep] at h
    split at h
    · simp only [Option.some.injEq, Prod.mk.injEq] at h
      simp [← h.2]
    · split at h
      · exact absurd h (by simp)
      · split at h
        · exact Nat.lt_trans (utf8Step2_length h) (by simp)
        · split at h
          · exact Nat.lt_trans (utf8Step3_length h) (by simp)
          · split at h
            · exact Nat.lt_trans (utf8Step4_length h) (by simp)
            · exact absurd h (by simp)

theorem utf8DecodeFuel_sufficient :
    ∀ (fuel : Nat) (l : Bytes), l.length ≤ fuel →
      utf8DecodeFuel fuel l = utf8DecodeFuel l.length l := by
  intro fuel
  induction fuel using Nat.strong_induction_on with
  | _ fuel ih =>
    intro l hl
    match l with
    | [] => cases fuel <;> rfl
    | b :: bs =>
      match fuel with
      | 0 => simp at hl
      | f + 1 =>
        simp only [utf8DecodeFuel, List.length_cons]
        cases hstep : utf8DecodeStep (b :: bs) with
        | none => rfl
        | some p =>
          obtain ⟨n, rest⟩ := p
          have hrest : rest.length < bs.length + 1 := utf8DecodeStep_length hstep
          have h1 : utf8DecodeFuel f rest = utf8DecodeFuel rest.length rest :=
            ih f (by omega) rest (by simp at hl; omega)
          have h2 : utf8DecodeFuel bs.length rest = utf8DecodeFuel rest.length rest :=
            ih bs.length (by simp at hl; omega) rest (by omega)
          simp only [h1, h2]

theorem utf8Decode_step_some {l : Bytes} {n : Nat} {rest : Bytes}
    (h : utf8DecodeStep l = some (n, rest)) :
    utf8Decode l = (utf8Decode rest).map (fun cs => Char.ofNat n :: cs) := by
  match l with
  | [] => simp [utf8DecodeStep] at h
  | b :: bs =>
    have hrest : rest.length < bs.length + 1 := utf8DecodeStep_length h
    simp only [utf8Decode, List.length_cons, utf8DecodeFuel, h]
    rw [utf8DecodeFuel_sufficient bs.length rest (by omega)]

theorem utf8Decode_step_none {l : Bytes} (hne : l ≠ [])
    (h : utf8DecodeStep l = none) : utf8Decode l = none := by
  match l with
  | [] => exact absurd rfl hne
  | b :: bs =>
    simp only [utf8Decode, List.length_cons, utf8DecodeFuel, h]

/-! ## Little-endian byte lemmas -/

theorem toBytesLE_length (n v : Nat) : (toBytesLE n v).length = n := by
  induction n generalizing v with
  | zero => rfl
  | succ m ih => simp [toBytesLE, ih]

theorem fromBytesLE_toBytesLE (n v : Nat) (h : v < 256 ^ n) :
    fromBytesLE (toBytesLE n v) = v := by
  induction n generalizing v with
  | zero =>
    simp [pow_zero] at h
    simp [toBytesLE, fromBytesLE, h]
  | succ m ih =>
    have hdiv : v / 256 < 256 ^ m := by
      rw [Nat.div_lt_iff_lt_mul (by norm_num : 0 < 256)]
      calc v < 256 ^ (m + 1) := h
        _ = 256 ^ m * 256 := by rw [pow_succ]
    simp only [toBytesLE, fromBytesLE, ih (v / 256) hdiv]
    omega

/-! ## UTF-8 round trip -/

theorem utf8Decode_one (b : Nat) (bs : Bytes) (h : b < 128) :
    utf8Decode (b :: bs) = (utf8Decode bs).map (fun cs => Char.ofNat b :: cs) :=
  utf8Decode_step_some (by simp [utf8DecodeStep, h])

theorem utf8Decode_two (b b1 : Nat) (bs : Bytes)
    (hb : 194 ≤ b) (hb' : b < 224) (h1 : 128 ≤ b1) (h1' : b1 < 192) :
    utf8Decode (b :: b1 :: bs) =
      (utf8Decode bs).map (fun cs => Char.ofNat ((b - 192) * 64 + (b1 - 128)) :: cs) :=
  utf8Decode_step_some (by
    simp only [utf8DecodeStep, utf8Step2, isCont]
    split_ifs <;> first | rfl | omega)

theorem utf8Decode_three (b b1 b2 : Nat) (bs : Bytes)
    (hb : 224 ≤ b) (hb' : b < 240)
    (h1 : 128 ≤ b1) (h1' : b1 < 192) (h2 : 128 ≤ b2) (h2' : b2 < 192)
    (hlo : 2048 ≤ (b - 224) * 4096 + (b1 - 128) * 64 + (b2 - 128))
    (hsur : ¬ (55296 ≤ (b - 224) * 4096 + (b1 - 128) * 64 + (b2 - 128) ∧
      (b - 224) * 4096 + (b1 - 128) * 64 + (b2 - 128) < 57344)) :
    utf8Decode (b :: b1 :: b2 :: bs) =
      (utf8Decode bs).map
        (fun cs => Char.ofNat ((b - 224) * 4096 + (b1 - 128) * 64 + (b2 - 128)) :: cs) :=
  utf8Decode_step_some (by
    simp only [utf8DecodeStep, utf8Step3, isCont]
    split_ifs <;> first | rfl | omega)

theorem utf8Decode_four (b b1 b2 b3 : Nat) (bs : Bytes)
    (hb : 240 ≤ b) (hb' : b < 245)
    (h1 : 128 ≤ b1) (h1' : b1 < 192) (h2 : 128 ≤ b2) (h2' : b2 < 192)
    (h3 : 128 ≤ b3) (h3' : b3 < 192)
    (hlo : 65536 ≤ (b - 240) * 262144 + (b1 - 128) * 4096 + (b2 - 128) * 64 + (b3 - 128))
    (hhi : (b - 240) * 262144 + (b1 - 128) * 4096 + (b2 - 128) * 64 + (b3 - 128) < 1114112) :
    utf8Decode (b :: b1 :: b2 :: b3 :: bs) =
      (utf8Decode bs).map
        (fun cs => Char.ofNat
          ((b - 240) * 262144 + (b1 - 128) * 4096 + (b2 - 128) * 64 + (b3 - 128)) :: cs) :=
  utf8Decode_step_some (by
    simp only [utf8DecodeStep, utf8Step4, isCont]
    split_ifs <;> first | rfl | omega)

theorem utf8Decode_encodeChar (c : Char) (bs : Bytes) :
    utf8Decode (utf8EncodeChar c ++ bs) = (utf8Decode bs).map (fun cs => c :: cs) := by
  have hv : Nat.isValidChar c.toNat := c.valid
  have hofNat : Char.ofNat c.toNat = c := Char.ofNat_toNat c
  have hv' : c.toNat < 55296 ∨ (57343 < c.toNat ∧ c.toNat < 1114112) := hv
  rcases Nat.lt_or_ge c.toNat 128 with h1 | h1
  · rw [show utf8EncodeChar c = [c.toNat] from by
        simp only [utf8EncodeChar]
        split_ifs <;> first | rfl | omega,
      List.cons_append, List.nil_append, utf8Decode_one _ _ h1, hofNat]
  · rcases Nat.lt_or_ge c.toNat 2048 with h2 | h2
    · rw [show utf8EncodeChar c = [192 + c.toNat / 64, 128 + c.toNat % 64] from by
        simp only [utf8EncodeChar]
        split_ifs <;> first | rfl | omega]
      rw [List.cons_append, List.cons_append, List.nil_append,
        utf8Decode_two _ _ _ (by omega) (by omega) (by omega) (by omega)]
      have : (192 + c.toNat / 64 - 192) * 64 + (128 + c.toNat % 64 - 128) = c.toNat := by
        omega
      simp only [this, hofNat]
    · rcases Nat.lt_or_ge c.toNat 65536 with h3 | h3
      · rw [show utf8EncodeChar c
            = [224 + c.toNat / 4096, 128 + c.toNat / 64 % 64, 128 + c.toNat % 64] from by
          simp only [utf8EncodeChar]
          split_ifs <;> first | rfl | omega]
        rw [List.cons_append, List.cons_append, List.cons_append, List.nil_append,
          utf8Decode_three _ _ _ _ (by omega) (by omega) (by omega) (by omega) (by omega)
            (by omega) (by omega) (by omega)]
        have : (224 + c.toNat / 4096 - 224) * 4096 + (128 + c.toNat / 64 % 64 - 128) * 64
            + (128 + c.toNat % 64 - 128) = c.toNat := by omega
        simp only [this, hofNat]
      · rw [show utf8EncodeChar c
            = [240 + c.toNat / 262144, 128 + c.toNat / 4096 % 64,
               128 + c.toNat / 64 % 64, 128 + c.toNat % 64] from by
          simp only [utf8EncodeChar]
          split_ifs <;> first | rfl | omega]
        rw [List.cons_append, List.cons_append, List.cons_append, List.cons_append,
          List.nil_append,
          utf8Decode_four _ _ _ _ _ (by omega) (by omega) (by omega) (by omega) (by omega)
            (by omega) (by omega) (by omega) (by omega) (by omega)]
        have : (240 + c.toNat / 262144 - 240) * 262144 + (128 + c.toNat / 4096 % 64 - 128) * 4096
            + (128 + c.toNat / 64 % 64 - 128) * 64 + (128 + c.toNat % 64 - 128) = c.toNat := by
          omega
        simp only [this, hofNat]

theorem utf8Decode_strEncodeUtf8 (s : List Char) :
    utf8Decode (strEncodeUtf8 s) = some s := by
  induction s with
  | nil => rfl
  | cons c cs ih =>
    have hstep : strEncodeUtf8 (c :: cs) = utf8EncodeChar c ++ strEncodeUtf8 cs := by
      simp [strEncodeUtf8]
    rw [hstep, utf8Decode_encodeChar, ih]
    rfl

/-! ## Frame structure lemmas -/

theorem wsOffsetsAux_length (s : Nat) (ps : List Bytes) :
    (wsOffsetsAux s ps).length = ps.length := by
  induction ps generalizing s with
  | nil => rfl
  | cons p ps ih => simp [wsOffsetsAux, ih]

theorem wsOffsets_length (msg_list : List Bytes) (channelB : Bytes) :
    (wsOffsets msg_list channelB).length = msg_list.length + 2 := by
  simp [wsOffsets, wsOffsetsAux, wsOffsetsAux_length]

theorem pySlice_front {pre rest : Bytes} {a b : Nat} (ha : pre.length ≤ a) :
    pySlice (pre ++ rest) a b = pySlice rest (a - pre.length) (b - pre.length) := by
  simp only [pySlice]
  have h1 : (pre ++ rest).drop a = rest.drop (a - pre.length) := by
    conv_lhs => rw [show a = pre.length + (a - pre.length) from by omega]
    rw [← List.drop_drop, List.drop_left]
  rw [h1]
  congr 1
  omega

/-- Slicing the `i`-th eight-byte block out of the serialized offset table. -/
theorem pySlice_offsetTable (offsets : List Nat) (tail : Bytes) :
    ∀ i, i < offsets.length →
      pySlice ((offsets.map (toBytesLE 8)).flatten ++ tail) (8 * i) (8 * i + 8)
        = toBytesLE 8 (offsets.getD i 0) := by
  induction offsets with
  | nil => intro i h; simp at h
  | cons o os ih =>
    intro i h
    match i with
    | 0 =>
      simp only [List.map_cons, List.flatten_cons, List.getD_cons_zero, Nat.mul_zero,
        Nat.zero_add, pySlice, Nat.sub_zero, List.drop_zero, List.append_assoc]
      exact List.take_left' (toBytesLE_length 8 o)
    | j + 1 =>
      have h8 : (toBytesLE 8 o).length = 8 := toBytesLE_length 8 o
      simp only [List.map_cons, List.flatten_cons, List.getD_cons_succ, List.append_assoc]
      rw [pySlice_front (by omega)]
      have e1 : 8 * (j + 1) - (toBytesLE 8 o).length = 8 * j := by omega
      have e2 : 8 * (j + 1) + 8 - (toBytesLE 8 o).length = 8 * j + 8 := by omega
      rw [e1, e2]
      exact ih j (by simpa using h)

/-- Slicing a part back out of the concatenated payload, using the accumulated
offsets: the bytes between consecutive offsets are exactly the corresponding
part. -/
theorem pySlice_parts :
    ∀ (ps : List Bytes) (pre : Bytes) (i : Nat) (h : i < ps.length),
      pySlice (pre ++ ps.flatten)
          ((pre.length :: wsOffsetsAux pre.length ps).getD i 0)
          ((pre.length :: wsOffsetsAux pre.length ps).getD (i + 1) 0)
        = ps.get ⟨i, h⟩ := by
  intro ps
  induction ps with
  | nil => intro pre i h; simp at h
  | cons p ps ih =>
    intro pre i h
    match i with
    | 0 =>
      simp only [wsOffsetsAux, List.getD_cons_zero, List.getD_cons_succ,
        List.flatten_cons, pySlice, List.drop_left,
        Nat.add_sub_cancel, List.take_left]
      rfl
    | j + 1 =>
      have hlen : p.length + pre.length = (pre ++ p).length := by
        simp [Nat.add_comm]
      simp only [wsOffsetsAux, List.getD_cons_succ, List.flatten_cons, List.get_cons_succ]
      rw [hlen, ← List.append_assoc]
      exact ih (pre ++ p) j (by simpa using h)

theorem flatten_map_toBytesLE_length (offsets : List Nat) :
    ((offsets.map (toBytesLE 8)).flatten).length = 8 * offsets.length := by
  induction offsets with
  | nil => rfl
  | cons o os ih =>
    simp only [List.map_cons, List.flatten_cons, List.length_append, ih,
      toBytesLE_length, List.length_cons]
    ring

theorem wsOffsetsAux_getLast (s : Nat) (ps : List Bytes) :
    (s :: wsOffsetsAux s ps).getLastD 0 = s + (ps.map List.length).sum := by
  induction ps generalizing s with
  | nil => simp [wsOffsetsAux]
  | cons p ps ih =>
    simp only [wsOffsetsAux, List.map_cons, List.sum_cons]
    rw [List.getLastD_cons, List.getLastD_cons]
    have hih := ih (p.length + s)
    rw [List.getLastD_cons] at hih
    rw [hih]
    omega

theorem wsOffsetsAux_chain_le (s : Nat) (ps : List Bytes) :
    List.Chain' (· ≤ ·) (s :: wsOffsetsAux s ps) := by
  induction ps generalizing s with
  | nil => simp [wsOffsetsAux]
  | cons p ps ih =>
    simp only [wsOffsetsAux]
    exact List.chain'_cons.2 ⟨by omega, ih (p.length + s)⟩

theorem wsOffsetsAux_chain_lt (s : Nat) (ps : List Bytes)
    (hne : ∀ p ∈ ps, p ≠ []) :
    List.Chain' (· < ·) (s :: wsOffsetsAux s ps) := by
  induction ps generalizing s with
  | nil => simp [wsOffsetsAux]
  | cons p ps ih =>
    have hp : p.length ≠ 0 := by
      simpa [List.length_eq_zero] using hne p (by simp)
    simp only [wsOffsetsAux]
    exact List.chain'_cons.2 ⟨by omega, ih (p.length + s) (fun q hq => hne q (by simp [hq]))⟩

/-! ## Deserialization of a serialized frame -/

theorem serialize_eq_some {msg_list : List Bytes} {channel : List Char} {frame : Bytes}
    (h : serialize_msg_to_ws_v1 msg_list channel = some frame) :
    (wsOffsets msg_list (strEncodeUtf8 channel)).length < 2 ^ 64
    ∧ (∀ o ∈ wsOffsets msg_list (strEncodeUtf8 channel), o < 2 ^ 64)
    ∧ frame = toBytesLE 8 (wsOffsets msg_list (strEncodeUtf8 channel)).length
        ++ ((wsOffsets msg_list (strEncodeUtf8 channel)).map (toBytesLE 8)).flatten
        ++ strEncodeUtf8 channel ++ msg_list.flatten := by
  simp only [serialize_msg_to_ws_v1] at h
  split at h
  · rename_i hguard
    simp only [Option.some.injEq] at h
    exact ⟨hguard.1, hguard.2, h.symm⟩
  · exact absurd h (by simp)

theorem pow_256_8 : (256 : Nat) ^ 8 = 2 ^ 64 := by norm_num

theorem frame_count {msg_list : List Bytes} {channel : List Char} {frame : Bytes}
    (h : serialize_msg_to_ws_v1 msg_list channel = some frame) :
    fromBytesLE (pySlice frame 0 8)
      = (wsOffsets msg_list (strEncodeUtf8 channel)).length := by
  obtain ⟨hlen, _, hframe⟩ := serialize_eq_some h
  rw [hframe, List.append_assoc, List.append_assoc]
  simp only [pySlice, Nat.sub_zero, List.drop_zero]
  rw [List.take_left' (toBytesLE_length 8 _)]
  exact fromBytesLE_toBytesLE 8 _ (by rw [pow_256_8]; exact hlen)

theorem frame_offset {msg_list : List Bytes} {channel : List Char} {frame : Bytes}
    (h : serialize_msg_to_ws_v1 msg_list channel = some frame)
    (i : Nat) (hi : i < (wsOffsets msg_list (strEncodeUtf8 channel)).length) :
    fromBytesLE (pySlice frame (8 * (i + 1)) (8 * (i + 2)))
      = (wsOffsets msg_list (strEncodeUtf8 channel)).getD i 0 := by
  obtain ⟨hlen, hbound, hframe⟩ := serialize_eq_some h
  rw [hframe, List.append_assoc, List.append_assoc,
    pySlice_front (by rw [toBytesLE_length]; omega), toBytesLE_length]
  have e1 : 8 * (i + 1) - 8 = 8 * i := by omega
  have e2 : 8 * (i + 2) - 8 = 8 * i + 8 := by omega
  rw [e1, e2, pySlice_offsetTable _ _ i hi]
  refine fromBytesLE_toBytesLE 8 _ ?_
  rw [pow_256_8]
  refine hbound _ ?_
  rw [List.getD_eq_getElem _ _ hi]
  exact List.getElem_mem hi

/-- The explicit cons form of `wsOffsets`. -/
theorem wsOffsets_def (msg_list : List Bytes) (channelB : Bytes) :
    wsOffsets msg_list channelB
      = 8 * (1 + 1 + msg_list.length + 1)
        :: wsOffsetsAux (8 * (1 + 1 + msg_list.length + 1)) (channelB :: msg_list) := rfl

theorem frame_payload_slice {msg_list : List Bytes} {channel : List Char} {frame : Bytes}
    (h : serialize_msg_to_ws_v1 msg_list channel = some frame)
    (i : Nat) (hi : i < (strEncodeUtf8 channel :: msg_list).length) :
    pySlice frame ((wsOffsets msg_list (strEncodeUtf8 channel)).getD i 0)
        ((wsOffsets msg_list (strEncodeUtf8 channel)).getD (i + 1) 0)
      = (strEncodeUtf8 channel :: msg_list).get ⟨i, hi⟩ := by
  obtain ⟨hlen, hbound, hframe⟩ := serialize_eq_some h
  have hpre : (toBytesLE 8 (wsOffsets msg_list (strEncodeUtf8 channel)).length
      ++ ((wsOffsets msg_list (strEncodeUtf8 channel)).map (toBytesLE 8)).flatten).length
      = 8 * (1 + 1 + msg_list.length + 1) := by
    simp only [List.length_append, toBytesLE_length, flatten_map_toBytesLE_length,
      wsOffsets_length]
    omega
  have hp := pySlice_parts (strEncodeUtf8 channel :: msg_list)
    (toBytesLE 8 (wsOffsets msg_list (strEncodeUtf8 channel)).length
      ++ ((wsOffsets msg_list (strEncodeUtf8 channel)).map (toBytesLE 8)).flatten) i hi
  rw [hpre, ← wsOffsets_def] at hp
  rw [hframe]
  rw [List.append_assoc (toBytesLE 8 _ ++ _), ← List.flatten_cons (l := strEncodeUtf8 channel)]
  exact hp

/-- Round trip of the v1 codec: deserializing a serialized frame recovers the
channel and the raw parts. -/
theorem deserialize_serialize {msg_list : List Bytes} {channel : List Char} {frame : Bytes}
    (h : serialize_msg_to_ws_v1 msg_list channel = some frame) :
    deserialize_msg_from_ws_v1 frame = .ok (channel, msg_list) := by
  have hOlen := wsOffsets_length msg_list (strEncodeUtf8 channel)
  have hcnt := frame_count h
  have hlist : (List.range (fromBytesLE (pySlice frame 0 8))).map
      (fun i => fromBytesLE (pySlice frame (8 * (i + 1)) (8 * (i + 2))))
      = wsOffsets msg_list (strEncodeUtf8 channel) := by
    rw [hcnt]
    apply List.ext_get (by simp)
    intro n h1 h2
    simp only [List.get_eq_getElem, List.getElem_map, List.getElem_range]
    rw [frame_offset h n (by simpa using h1), List.getD_eq_getElem _ _ h2]
  have hchan : pySlice frame
      ((wsOffsets msg_list (strEncodeUtf8 channel)).getD 0 0)
      ((wsOffsets msg_list (strEncodeUtf8 channel)).getD 1 0)
      = strEncodeUtf8 channel :=
    frame_payload_slice h 0 (by simp)
  have hparts : (List.range' 1 (fromBytesLE (pySlice frame 0 8) - 2)).map
      (fun i => pySlice frame ((wsOffsets msg_list (strEncodeUtf8 channel)).getD i 0)
        ((wsOffsets msg_list (strEncodeUtf8 channel)).getD (i + 1) 0))
      = msg_list := by
    rw [hcnt, hOlen]
    apply List.ext_get (by simp)
    intro n h1 h2
    simp only [List.get_eq_getElem, List.getElem_map, List.getElem_range']
    have hfp := frame_payload_slice h (n + 1) (by simp; omega)
    rw [show 1 + 1 * n = n + 1 from by omega]
    rw [hfp]
    simp
  simp only [deserialize_msg_from_ws_v1]
  rw [hlist, hcnt, hOlen, if_neg (by omega), hchan, utf8Decode_strEncodeUtf8]
  rw [hcnt, hOlen] at hparts
  simp only [List.getD, List.get?_eq_getElem?,
    show msg_list.length + 2 - 2 = msg_list.length from by omega] at hparts
  simp [hparts]

/-! ## Further codec lemmas -/

/-- The accumulated offsets are the cumulative sums of the part lengths. -/
theorem wsOffsetsAux_eq_cumsum (s : Nat) (ps : List Bytes) :
    wsOffsetsAux s ps
      = (List.range ps.length).map
          (fun i => s + ((ps.take (i + 1)).map List.length).sum) := by
  induction ps generalizing s with
  | nil => rfl
  | cons p ps ih =>
    simp only [wsOffsetsAux, List.length_cons, List.range_succ_eq_map, List.map_cons,
      List.map_map]
    refine List.cons_eq_cons.2 ⟨by simp [Nat.add_comm], ?_⟩
    rw [ih (p.length + s)]
    refine List.map_congr_left ?_
    intro i hi
    simp only [Function.comp_apply, List.take_succ_cons, List.map_cons, List.sum_cons,
      Nat.succ_eq_add_one]
    omega

theorem utf8EncodeChar_ne_nil (c : Char) : utf8EncodeChar c ≠ [] := by
  simp only [utf8EncodeChar]
  split_ifs <;> simp

theorem strEncodeUtf8_ne_nil {channel : List Char} (h : channel ≠ []) :
    strEncodeUtf8 channel ≠ [] := by
  match channel with
  | [] => exact absurd rfl h
  | c :: cs =>
    have hne := utf8EncodeChar_ne_nil c
    simp only [strEncodeUtf8, List.map_cons, List.flatten_cons]
    intro hcontra
    rw [List.append_eq_nil] at hcontra
    exact hne hcontra.1

/-- Any Python slice of a buffer is a sublist of the buffer: slicing clamps
to the bounds and never reads outside it. -/
theorem pySlice_sublist (l : Bytes) (a b : Nat) : (pySlice l a b).Sublist l :=
  (List.take_sublist _ _).trans (List.drop_sublist _ _)

/-- The offsets list built by the code equals the cumulative-sum offsets list
of the spec wording. -/
theorem wsOffsets_eq_cumsum (msg_list : List Bytes) (channelB : Bytes) :
    wsOffsets msg_list channelB
      = (List.range ((channelB :: msg_list).length + 1)).map
          (fun i => 8 * (2 + (channelB :: msg_list).length)
            + (((channelB :: msg_list).take i).map List.length).sum) := by
  have hs : 8 * (1 + 1 + msg_list.length + 1)
      = 8 * (2 + (channelB :: msg_list).length) := by
    simp only [List.length_cons]
    ring
  rw [wsOffsets_def, wsOffsetsAux_eq_cumsum, hs, List.range_succ_eq_map, List.map_cons,
    List.map_map]
  refine List.cons_eq_cons.2 ⟨by simp, ?_⟩
  refine List.map_congr_left ?_
  intro i hi
  simp [Function.comp, Nat.succ_eq_add_one]



/-! ## Claims -/

/-- Claim C1: round trip of the v1 frame codec — for every channel string and
every list of four byte-string message parts, `deserialize_msg_from_ws_v1`
applied to the bytes produced by `serialize_msg_to_ws_v1` on those parts and
that channel returns exactly the original channel and the original raw parts.
(The serializer hypothesis only rules out the `OverflowError` case of an
offset not fitting in eight bytes.) -/
theorem C1_roundtrip (channel : List Char) (msg_list : List Bytes) (frame : Bytes)
    (_hfour : msg_list.length = 4)
    (h : serialize_msg_to_ws_v1 msg_list channel = some frame) :
    deserialize_msg_from_ws_v1 frame = .ok (channel, msg_list) :=
  deserialize_serialize h

/-- Witness for C1 at the channel `shell` and four concrete one-byte parts. -/
theorem C1_roundtrip_witness :
    deserialize_msg_from_ws_v1
        ((serialize_msg_to_ws_v1 [[104], [112], [109], [99]]
          ['s', 'h', 'e', 'l', 'l']).getD [])
      = .ok (['s', 'h', 'e', 'l', 'l'], [[104], [112], [109], [99]]) :=
  C1_roundtrip ['s', 'h', 'e', 'l', 'l'] [[104], [112], [109], [99]] _
    (by decide) (by decide)

/-- Claim C3: the serializer produces exactly the v1 wire layout — an 8-byte
little-endian count of offsets, then that many 8-byte little-endian cumulative
offsets (the first locating the end of the preamble, the following ones the
end of the channel bytes and of each successive payload part), followed by the
concatenated raw bytes of the channel name and the four parts in fixed order,
as described by `frameLayoutV1`. -/
theorem C3_wire_layout (msg_list : List Bytes) (channel : List Char) (frame : Bytes)
    (_hfour : msg_list.length = 4)
    (h : serialize_msg_to_ws_v1 msg_list channel = some frame) :
    frame = frameLayoutV1 msg_list channel := by
  obtain ⟨hl, hb, hframe⟩ := serialize_eq_some h
  rw [hframe]
  simp only [frameLayoutV1]
  rw [← wsOffsets_eq_cumsum]
  rw [show (strEncodeUtf8 channel :: msg_list).length + 1
      = (wsOffsets msg_list (strEncodeUtf8 channel)).length from by
    simp [wsOffsets_length]]
  rw [List.flatten_cons]
  simp [List.append_assoc]

/-- Witness for C3 at a concrete channel and parts. -/
theorem C3_wire_layout_witness :
    (serialize_msg_to_ws_v1 [[1], [2], [3], [4]] ['s']).getD []
      = frameLayoutV1 [[1], [2], [3], [4]] ['s'] :=
  C3_wire_layout [[1], [2], [3], [4]] ['s'] _ (by decide) (by decide)

/-- Claim C5: encoding is pure and deterministic — two invocations on
identical inputs yield identical byte strings, both for the raw-parts entry
point and for the packed entry point with any fixed packer; in this embedding
the serializer is a function of its arguments alone, with no ambient state. -/
theorem C5_deterministic :
    (∀ (msg_list : List Bytes) (channel : List Char),
      serialize_msg_to_ws_v1 msg_list channel = serialize_msg_to_ws_v1 msg_list channel)
    ∧ ∀ (α : Type) (pack : α → Bytes) (msg : KernelMsg α) (channel : List Char),
        serialize_msg_to_ws_v1_packed msg channel pack
          = serialize_msg_to_ws_v1_packed msg channel pack :=
  ⟨fun _ _ => rfl, fun _ _ _ _ => rfl⟩

/-- Claim C9: the total byte length of a produced frame equals the last offset
recorded in its offset table, and the declared offset count (read back from
the first eight bytes) equals 2 plus the number of message parts. -/
theorem C9_length_count (msg_list : List Bytes) (channel : List Char) (frame : Bytes)
    (h : serialize_msg_to_ws_v1 msg_list channel = some frame) :
    frame.length = (wsOffsets msg_list (strEncodeUtf8 channel)).getLastD 0
    ∧ fromBytesLE (pySlice frame 0 8) = 2 + msg_list.length := by
  obtain ⟨hl, hb, hframe⟩ := serialize_eq_some h
  constructor
  · rw [hframe, wsOffsets_def, wsOffsetsAux_getLast]
    simp only [List.length_append, toBytesLE_length]
    rw [flatten_map_toBytesLE_length]
    simp only [List.length_flatten, List.length_cons, wsOffsetsAux_length,
      List.map_cons, List.sum_cons]
    omega
  · rw [frame_count h, wsOffsets_length]
    omega

/-- Witness for C9 at a concrete channel and parts. -/
theorem C9_length_count_witness :
    ((serialize_msg_to_ws_v1 [[1], [2], [3], [4]] ['s']).getD []).length
        = (wsOffsets [[1], [2], [3], [4]] (strEncodeUtf8 ['s'])).getLastD 0
    ∧ fromBytesLE (pySlice ((serialize_msg_to_ws_v1 [[1], [2], [3], [4]] ['s']).getD []) 0 8)
        = 2 + ([[1], [2], [3], [4]] : List Bytes).length :=
  C9_length_count [[1], [2], [3], [4]] ['s'] _ (by decide)

/-- Claim C4 counterexample: with an empty channel string the serializer
succeeds, yet the offsets in its table are NOT strictly increasing — the first
two offsets are both 56 — refuting the claim, which asserted strictness even
for empty channel names and empty parts. -/
theorem C4_counterexample :
    (serialize_msg_to_ws_v1 [[], [], [], []] []).isSome = true
    ∧ ¬ List.Chain' (· < ·) (wsOffsets [[], [], [], []] (strEncodeUtf8 [])) :=
  ⟨by decide, by
    simp [show wsOffsets [[], [], [], []] (strEncodeUtf8 [])
        = [56, 56, 56, 56, 56, 56] from rfl, List.chain'_cons]⟩

/-- Claim C4 amended: the offsets written by `serialize_msg_to_ws_v1` are
non-decreasing, the first offset equals the fixed preamble size
8 × (2 + number of parts) where the parts are the channel bytes plus the
payload parts, and the offsets are strictly increasing whenever the channel
is nonempty and every part is nonempty. -/
theorem C4_offsets (msg_list : List Bytes) (channel : List Char) :
    List.Chain' (· ≤ ·) (wsOffsets msg_list (strEncodeUtf8 channel))
    ∧ (wsOffsets msg_list (strEncodeUtf8 channel)).headD 0
        = 8 * (2 + (strEncodeUtf8 channel :: msg_list).length)
    ∧ (channel ≠ [] → (∀ p ∈ msg_list, p ≠ []) →
        List.Chain' (· < ·) (wsOffsets msg_list (strEncodeUtf8 channel))) := by
  refine ⟨?_, ?_, ?_⟩
  · rw [wsOffsets_def]
    exact wsOffsetsAux_chain_le _ _
  · rw [wsOffsets_def]
    simp only [List.headD_cons, List.length_cons]
    ring
  · intro h1 h2
    rw [wsOffsets_def]
    refine wsOffsetsAux_chain_lt _ _ ?_
    intro p hp
    rcases List.mem_cons.1 hp with rfl | hmem
    · exact strEncodeUtf8_ne_nil h1
    · exact h2 p hmem

/-- Witness for the amended C4: strict increase at a nonempty channel and
nonempty parts. -/
theorem C4_offsets_witness :
    List.Chain' (· < ·) (wsOffsets [[5], [6], [7], [8]] (strEncodeUtf8 ['s'])) :=
  (C4_offsets [[5], [6], [7], [8]] ['s']).2.2 (by decide) (by decide)

/-- Claim C2 counterexample: a buffer declaring two offsets 24 and 20 — not
strictly increasing — is decoded WITHOUT any error: `deserialize_msg_from_ws_v1`
returns an empty channel and an empty part list instead of failing, because
Python slicing clamps; the code contains no `MalformedFrame` validation at
all. -/
theorem C2_counterexample :
    fromBytesLE (pySlice (toBytesLE 8 2 ++ toBytesLE 8 24 ++ toBytesLE 8 20) 8 16) = 24
    ∧ fromBytesLE (pySlice (toBytesLE 8 2 ++ toBytesLE 8 24 ++ toBytesLE 8 20) 16 24) = 20
    ∧ deserialize_msg_from_ws_v1 (toBytesLE 8 2 ++ toBytesLE 8 24 ++ toBytesLE 8 20)
        = .ok ([], []) :=
  ⟨by decide, by decide, by decide⟩

/-- Claim C2 amended: the decoder performs no `MalformedFrame` validation.  A
declared offset count below two (in particular zero) fails with `IndexError`
rather than a dedicated malformed-frame error; every part returned on success
is a sublist of the input buffer, so the decoder never reads past the buffer
bounds; and a buffer shorter than its last offset is decoded without error,
yielding truncated data (here: declared offsets 16 and 100 over a 24-byte
buffer yield the truncated channel and no parts). -/
theorem C2_no_validation :
    (∀ ws_msg : Bytes, fromBytesLE (pySlice ws_msg 0 8) < 2 →
      deserialize_msg_from_ws_v1 ws_msg = .error .indexError)
    ∧ (∀ (ws_msg : Bytes) (channel : List Char) (parts : List Bytes),
        deserialize_msg_from_ws_v1 ws_msg = .ok (channel, parts) →
        ∀ p ∈ parts, p.Sublist ws_msg)
    ∧ deserialize_msg_from_ws_v1 (toBytesLE 8 2 ++ toBytesLE 8 16 ++ toBytesLE 8 100)
        = .ok ('d' :: List.replicate 7 (Char.ofNat 0), []) := by
  refine ⟨?_, ?_, by decide⟩
  · intro ws h
    simp only [deserialize_msg_from_ws_v1]
    rw [if_pos h]
  · intro ws channel parts hdes p hp
    simp only [deserialize_msg_from_ws_v1] at hdes
    split at hdes
    · exact absurd hdes (by simp)
    · split at hdes
      · exact absurd hdes (by simp)
      · simp only [Except.ok.injEq, Prod.mk.injEq] at hdes
        rw [← hdes.2] at hp
        obtain ⟨i, hi, heq⟩ := List.mem_map.1 hp
        rw [← heq]
        exact pySlice_sublist _ _ _

/-- Witness for the amended C2: the empty buffer has offset count zero and
fails with `IndexError`; the part sliced out of a well-formed one-part frame
is a sublist of that frame. -/
theorem C2_no_validation_witness :
    deserialize_msg_from_ws_v1 [] = .error .indexError
    ∧ [(104 : Nat)].Sublist (toBytesLE 8 3 ++ toBytesLE 8 32 ++ toBytesLE 8 33
        ++ toBytesLE 8 34 ++ [97, 104]) :=
  ⟨C2_no_validation.1 [] (by decide),
   C2_no_validation.2.1
     (toBytesLE 8 3 ++ toBytesLE 8 32 ++ toBytesLE 8 33 ++ toBytesLE 8 34 ++ [97, 104])
     ['a'] [[104]] (by decide) [104] (by decide)⟩

/-- Claim C6: for a manager whose kernel URL is defined, `shutdown_kernel`
returns normally when the HTTP DELETE of the kernel URL responds 404 (the
kernel is treated as already gone), while any other HTTP error status in
`[400, 600)` propagates to the caller as `HTTPError`. -/
theorem C6_shutdown (st : KernelClient) (http : Http) (u : String)
    (hu : st.kernel_url = some u) :
    ((http { method := .DELETE, url := u }).status = 404 →
      KernelClient.shutdown_kernel http st = .ok ())
    ∧ ∀ s, (http { method := .DELETE, url := u }).status = s →
        400 ≤ s → s < 600 → s ≠ 404 →
        KernelClient.shutdown_kernel http st = .error (.httpError s) := by
  constructor
  · intro h404
    simp [KernelClient.shutdown_kernel, hu, fetch, h404]
  · intro s hs h4 h6 hne
    simp [KernelClient.shutdown_kernel, hu, fetch, hs, h4, h6, hne]

/-- Witness for C6: a concrete manager whose DELETE responds 404 shuts down
without error. -/
theorem C6_shutdown_witness :
    KernelClient.shutdown_kernel
        (fun _ =>
          { status := 404,
            body := { id := "k1", execution_state := "idle", last_activity := "t" } })
        { server_url := "http://h", token := "tok", username := "u",
          __kernel := some { id := "k1", execution_state := "idle", last_activity := "t" },
          __client := none, __client_kwargs := none }
      = .ok () :=
  (C6_shutdown
    { server_url := "http://h", token := "tok", username := "u",
      __kernel := some { id := "k1", execution_state := "idle", last_activity := "t" },
      __client := none, __client_kwargs := none }
    (fun _ =>
      { status := 404,
        body := { id := "k1", execution_state := "idle", last_activity := "t" } })
    "http://h/api/kernels/k1" rfl).1 rfl

/-- Claim C7 counterexample: a manager holding a kernel model with an empty id
string HAS a managed kernel (`has_kernel` is true), yet `refresh_model` raises
`RuntimeError` instead of returning a model, because `kernel_url` tests the id
for Python truthiness and the empty id makes the URL `None`. -/
theorem C7_counterexample :
    KernelClient.has_kernel
        { server_url := "http://h", token := "t", username := "u",
          __kernel := some { id := "", execution_state := "unknown", last_activity := "x" },
          __client := none, __client_kwargs := none } = true
    ∧ KernelClient.refresh_model
        (fun _ =>
          { status := 200,
            body := { id := "k", execution_state := "idle", last_activity := "x" } })
        { server_url := "http://h", token := "t", username := "u",
          __kernel := some { id := "", execution_state := "unknown", last_activity := "x" },
          __client := none, __client_kwargs := none }
      = .error .runtimeError :=
  ⟨rfl, rfl⟩

/-- Claim C7 amended: `refresh_model` raises `RuntimeError` exactly when the
kernel URL is undefined — no kernel managed, or a managed kernel whose id is
the empty string; otherwise it returns the model parsed from the server
response, or `None` when the server responds 404, in which case the stored
kernel model becomes `None` (so `has_kernel` is subsequently false) and the
cached client is dropped; any other HTTP error status propagates. -/
theorem C7_refresh (st : KernelClient) (http : Http) :
    (st.kernel_url = none → KernelClient.refresh_model http st = .error .runtimeError)
    ∧ ∀ u, st.kernel_url = some u →
        (¬ (400 ≤ (http { method := .GET, url := u }).status
            ∧ (http { method := .GET, url := u }).status < 600) →
          KernelClient.refresh_model http st
            = .ok (some (http { method := .GET, url := u }).body,
                { st with __kernel := some (http { method := .GET, url := u }).body }))
        ∧ ((http { method := .GET, url := u }).status = 404 →
            KernelClient.refresh_model http st
              = .ok (none, { st with __kernel := none, __client := none })
            ∧ KernelClient.has_kernel { st with __kernel := none, __client := none } = false)
        ∧ (400 ≤ (http { method := .GET, url := u }).status →
            (http { method := .GET, url := u }).status < 600 →
            (http { method := .GET, url := u }).status ≠ 404 →
            KernelClient.refresh_model http st
              = .error (.httpError (http { method := .GET, url := u }).status)) := by
  constructor
  · intro h
    simp [KernelClient.refresh_model, h]
  · intro u hu
    refine ⟨?_, ?_, ?_⟩
    · intro hok
      simp [KernelClient.refresh_model, hu, fetch, hok]
    · intro h404
      exact ⟨by simp [KernelClient.refresh_model, hu, fetch, h404],
        by simp [KernelClient.has_kernel]⟩
    · intro h4 h6 hne
      simp [KernelClient.refresh_model, hu, fetch, h4, h6, hne]

/-- Witness for the amended C7: a concrete manager whose GET responds 404 ends
up with no kernel model, and `has_kernel` becomes false. -/
theorem C7_refresh_witness :
    KernelClient.refresh_model
        (fun _ =>
          { status := 404,
            body := { id := "k1", execution_state := "idle", last_activity := "t" } })
        { server_url := "http://h", token := "tok", username := "u",
          __kernel := some { id := "k1", execution_state := "idle", last_activity := "t" },
          __client := none, __client_kwargs := none }
      = .ok (none,
          { server_url := "http://h", token := "tok", username := "u",
            __kernel := none, __client := none, __client_kwargs := none })
    ∧ KernelClient.has_kernel
        { server_url := "http://h", token := "tok", username := "u",
          __kernel := none, __client := none, __client_kwargs := none } = false :=
  (((C7_refresh
    { server_url := "http://h", token := "tok", username := "u",
      __kernel := some { id := "k1", execution_state := "idle", last_activity := "t" },
      __client := none, __client_kwargs := none }
    (fun _ =>
      { status := 404,
        body := { id := "k1", execution_state := "idle", last_activity := "t" } })).2
    "http://h/api/kernels/k1" rfl).2.1 rfl)

/-- Claim C8 counterexample: `client_kwargs` is applied last, "for manual
overrides", so a manager built with a token override constructs a websocket
client whose token is NOT the manager's bearer token — refuting the claim as
stated for every manager. -/
theorem C8_counterexample :
    KernelClient.client
        { server_url := "http://h", token := "tok", username := "u",
          __kernel := some { id := "k", execution_state := "idle", last_activity := "t" },
          __client := none,
          __client_kwargs := some
            { endpoint := none, token := some "other", username := none } }
      = .ok
        ({ endpoint := "ws://h/api/kernels/k/channels", token := "other", username := "u" },
          { server_url := "http://h", token := "tok", username := "u",
            __kernel := some { id := "k", execution_state := "idle", last_activity := "t" },
            __client := some
              { endpoint := "ws://h/api/kernels/k/channels", token := "other",
                username := "u" },
            __client_kwargs := some
              { endpoint := none, token := some "other", username := none } })
    ∧ ("other" : String) ≠ "tok" :=
  ⟨by decide, by decide⟩

/-- Claim C8 amended: when no kernel URL is defined the `client` property
raises `RuntimeError`; for a manager with a kernel URL, no cached client, and
`client_kwargs` that do not override the endpoint or the token, the property
constructs the websocket client with endpoint equal to the kernel URL with a
leading `http` rewritten to `ws` joined with the path segment `channels`, and
passes the manager's bearer token to it. -/
theorem C8_client (st : KernelClient) :
    (st.kernel_url = none → KernelClient.client st = .error .runtimeError)
    ∧ ∀ u, st.kernel_url = some u → st.__client = none →
        (∀ ck ∈ st.__client_kwargs, ck.endpoint = none ∧ ck.token = none) →
        ∃ c st2, KernelClient.client st = .ok (c, st2)
          ∧ c.endpoint = url_path_join [http_protocol_sub u, "channels"]
          ∧ c.token = st.token := by
  constructor
  · intro h
    simp [KernelClient.client, h]
  · intro u hu hc hkw
    cases hck : st.__client_kwargs with
    | none =>
      simp only [KernelClient.client, hu, hc, hck, applyKwargs]
      exact ⟨_, _, rfl, rfl, rfl⟩
    | some ck =>
      obtain ⟨he, ht⟩ := hkw ck (by simp [hck])
      simp only [KernelClient.client, hu, hc, hck]
      refine ⟨_, _, rfl, ?_, ?_⟩
      · simp [applyKwargs, he]
      · simp [applyKwargs, ht]

/-- Witness for the amended C8: a concrete manager with no overrides gets a
client with the expected ws endpoint and the manager's token. -/
theorem C8_client_witness :
    ∃ c st2, KernelClient.client
        { server_url := "http://h", token := "tok", username := "u",
          __kernel := some { id := "k", execution_state := "idle", last_activity := "t" },
          __client := none, __client_kwargs := none }
      = .ok (c, st2)
      ∧ c.endpoint = url_path_join [http_protocol_sub "http://h/api/kernels/k", "channels"]
      ∧ c.token = "tok" :=
  (C8_client
    { server_url := "http://h", token := "tok", username := "u",
      __kernel := some { id := "k", execution_state := "idle", last_activity := "t" },
      __client := none, __client_kwargs := none }).2
    "http://h/api/kernels/k" rfl rfl (by simp)

/-- Claim C10: if a kernel is already managed, `start_kernel` raises
`RuntimeError` — the result does not depend on the network at all (no HTTP
request is issued) and, the exception being raised before any assignment, the
managed kernel model is untouched; when no kernel is managed and the POST
succeeds, the server's response replaces the kernel model and any previously
cached websocket client is discarded. -/
theorem C10_start (st : KernelClient) (name : String) (path : Option String) :
    (st.has_kernel = true →
      (∀ http1 http2 : Http,
        KernelClient.start_kernel http1 st name path
          = KernelClient.start_kernel http2 st name path)
      ∧ ∀ http : Http, KernelClient.start_kernel http st name path
          = .error .runtimeError)
    ∧ (st.has_kernel = false → ∀ http : Http,
        ¬ (400 ≤ (http
            { method := .POST, url := st.server_url ++ "/api/kernels",
              payload := some (name, path) }).status
          ∧ (http
            { method := .POST, url := st.server_url ++ "/api/kernels",
              payload := some (name, path) }).status < 600) →
        KernelClient.start_kernel http st name path
          = .ok ((http
              { method := .POST, url := st.server_url ++ "/api/kernels",
                payload := some (name, path) }).body,
              { st with
                __kernel := some (http
                  { method := .POST, url := st.server_url ++ "/api/kernels",
                    payload := some (name, path) }).body,
                __client := none })) := by
  constructor
  · intro h
    refine ⟨fun http1 http2 => ?_, fun http => ?_⟩
    · simp [KernelClient.start_kernel, h]
    · simp [KernelClient.start_kernel, h]
  · intro h http hok
    simp [KernelClient.start_kernel, h, fetch, hok]

/-- Witness for C10: a fresh manager successfully starting a kernel stores the
returned model and has no cached client. -/
theorem C10_start_witness :
    KernelClient.start_kernel
        (fun _ =>
          { status := 201,
            body := { id := "k9", execution_state := "starting", last_activity := "t" } })
        { server_url := "http://h", token := "tok", username := "u",
          __kernel := none, __client := none, __client_kwargs := none }
        "python" none
      = .ok ({ id := "k9", execution_state := "starting", last_activity := "t" },
          { server_url := "http://h", token := "tok", username := "u",
            __kernel := some
              { id := "k9", execution_state := "starting", last_activity := "t" },
            __client := none, __client_kwargs := none }) :=
  ((C10_start
    { server_url := "http://h", token := "tok", username := "u",
      __kernel := none, __client := none, __client_kwargs := none }
    "python" none).2 rfl
    (fun _ =>
      { status := 201,
        body := { id := "k9", execution_state := "starting", last_activity := "t" } })
    (by decide))

end JupyterKernelClient
